import Mathlib

/-!
Verification of the manifest resolution and delivery pipeline.

This file gives a shallow embedding of the TypeScript sources:
  - packages/shared/src/capabilities.ts  (applyOverrides, cloneModel)
  - packages/shared/src/search.ts        (filterModels)
  - packages/server/src/transform.ts     (toCanonicalManifest, createManifestTags,
                                          etagMatches, handleConditionalRequest)

Conventions of the embedding:
  - TypeScript optional fields (`f?: T`) become `Option T`; an absent key and a
    key that was never written are identified (object literals in this codebase
    omit unset fields).
  - JavaScript `Map` becomes an insertion-ordered association list
    (`List (String × α)`): `set` replaces the first entry with the key in
    place, otherwise appends; `get` returns the first entry's value.
  - Numbers are modelled as `Int` (every numeric value the verified claims
    exercise is integral).
  - For the serialization layer (hashing), JavaScript objects are modelled as
    ordered field lists, because `JSON.stringify` observes key insertion order.
-/

namespace LlmRegistry

/-- JS `Map.get`: value of the first entry carrying the key. -/
def mapGet {α : Type} : List (String × α) → String → Option α
  | [], _ => none
  | (k1, v1) :: t, k => if k1 = k then some v1 else mapGet t k

/-- JS `Map.set`: replace the first entry carrying the key in place,
otherwise append a fresh entry at the end. -/
def mapSet {α : Type} : List (String × α) → String → α → List (String × α)
  | [], k, v => [(k, v)]
  | (k1, v1) :: t, k, v => if k1 = k then (k, v) :: t else (k1, v1) :: mapSet t k v

/-- Well-formedness of an association map under a key extractor: every stored
value carries exactly the key it is filed under. -/
def mapWF {α : Type} (keyOf : α → String) (m : List (String × α)) : Prop :=
  ∀ e ∈ m, keyOf e.2 = e.1

theorem mapWF_nil {α : Type} (keyOf : α → String) : mapWF keyOf [] := by
  intro e he; cases he

theorem mapWF_mapSet {α : Type} {keyOf : α → String} {m : List (String × α)}
    {k : String} {v : α} (hm : mapWF keyOf m) (hv : keyOf v = k) :
    mapWF keyOf (mapSet m k v) := by
  induction m with
  | nil => intro e he; simp [mapSet] at he; subst he; exact hv
  | cons hd t ih =>
      intro e he
      obtain ⟨k1, v1⟩ := hd
      by_cases hk : k1 = k
      · simp [mapSet, hk] at he
        rcases he with he | he
        · subst he; exact hv
        · exact hm e (List.mem_cons_of_mem _ he)
      · simp [mapSet, hk] at he
        rcases he with he | he
        · subst he; exact hm (k1, v1) (List.mem_cons_self _ _)
        · exact ih (fun e he => hm e (List.mem_cons_of_mem _ he)) e he

theorem mapGet_mapSet_self {α : Type} (m : List (String × α)) (k : String) (v : α) :
    mapGet (mapSet m k v) k = some v := by
  induction m with
  | nil => simp [mapSet, mapGet]
  | cons hd t ih =>
      obtain ⟨k1, v1⟩ := hd
      by_cases hk : k1 = k
      · simp [mapSet, hk, mapGet]
      · simp [mapSet, hk, mapGet, ih]

theorem mapGet_mem {α : Type} {m : List (String × α)} {k : String} {v : α}
    (h : mapGet m k = some v) : (k, v) ∈ m := by
  induction m with
  | nil => simp [mapGet] at h
  | cons hd t ih =>
      obtain ⟨k1, v1⟩ := hd
      by_cases hk : k1 = k
      · simp [mapGet, hk] at h
        subst hk; subst h; exact List.mem_cons_self _ _
      · simp [mapGet, hk] at h
        exact List.mem_cons_of_mem _ (ih h)

/-- Looking up a freshly-set key among the stored values: on a well-formed map,
scanning the values for the key finds exactly the value just stored. -/
theorem find_map_mapSet {α : Type} {keyOf : α → String} {m : List (String × α)}
    {k : String} {v : α} (hm : mapWF keyOf m) (hv : keyOf v = k) :
    ((mapSet m k v).map Prod.snd).find? (fun x => keyOf x == k) = some v := by
  induction m with
  | nil =>
      have hs : mapSet ([] : List (String × α)) k v = [(k, v)] := rfl
      rw [hs, List.map_cons, List.map_nil, List.find?_cons]
      simp [hv]
  | cons hd t ih =>
      obtain ⟨k1, v1⟩ := hd
      by_cases hk : k1 = k
      · have hs : mapSet ((k1, v1) :: t) k v = (k, v) :: t := by
          simp [mapSet, hk]
        rw [hs, List.map_cons, List.find?_cons]
        simp [hv]
      · have h1 : keyOf v1 = k1 := hm (k1, v1) (List.mem_cons_self _ _)
        have hs : mapSet ((k1, v1) :: t) k v = (k1, v1) :: mapSet t k v := by
          simp [mapSet, hk]
        rw [hs, List.map_cons, List.find?_cons]
        have hne : (keyOf v1 == k) = false := by simp [h1, hk]
        rw [hne]
        exact ih (fun e he => hm e (List.mem_cons_of_mem _ he))

theorem mapWF_build {α β : Type} (keyOf : α → String) (keyB : β → String) (valB : β → α)
    (hv : ∀ b, keyOf (valB b) = keyB b) (l : List β) :
    ∀ acc, mapWF keyOf acc →
      mapWF keyOf (l.foldl (fun m b => mapSet m (keyB b) (valB b)) acc) := by
  induction l with
  | nil => intro acc hacc; simpa using hacc
  | cons b t ih =>
      intro acc hacc
      exact ih _ (mapWF_mapSet hacc (hv b))

/-! ## JavaScript string primitives

The embedding implements the JavaScript string operations the sources use
(`split` on a single-character separator, `trim`, `toLowerCase`, `includes`,
`startsWith`, `slice`) by structural recursion over the character list, so
that every definition evaluates inside the kernel. All data these functions
see in this codebase is ASCII, where these agree with the JS originals. -/

/-- The whitespace characters `trim` removes (the ASCII ones). -/
def isJsSpace (c : Char) : Bool :=
  c = ' ' || c = '\t' || c = '\n' || c = '\r' ||
  c = Char.ofNat 11 || c = Char.ofNat 12

/-- JS `s.trim()`. -/
def jsTrim (s : String) : String :=
  let l := s.toList.dropWhile isJsSpace
  String.mk ((l.reverse.dropWhile isJsSpace).reverse)

/-- Helper for `jsSplitChar`: accumulate the current segment (reversed). -/
def jsSplitCharAux (sep : Char) : List Char → List Char → List String
  | [], acc => [String.mk acc.reverse]
  | x :: xs, acc =>
      if x = sep then String.mk acc.reverse :: jsSplitCharAux sep xs []
      else jsSplitCharAux sep xs (x :: acc)

/-- JS `s.split(sep)` for a single-character separator: `""` yields `[""]`,
and every separator occurrence opens a new (possibly empty) segment. -/
def jsSplitChar (sep : Char) (s : String) : List String :=
  jsSplitCharAux sep s.toList []

/-- JS `s.toLowerCase()` (ASCII letters). -/
def jsToLower (s : String) : String :=
  String.mk (s.toList.map (fun c =>
    if 65 ≤ c.toNat && c.toNat ≤ 90 then Char.ofNat (c.toNat + 32) else c))

/-- JS `s.length` (code points; equal to the JS value on the data in play). -/
def jsLength (s : String) : Nat := s.toList.length

/-- JS `s.startsWith(t)`. -/
def jsStartsWith (s t : String) : Bool := t.toList.isPrefixOf s.toList

/-- JS `s.slice(n)` (drop the first `n` characters). -/
def jsDropChars (n : Nat) (s : String) : String := String.mk (s.toList.drop n)

/-- JS `s.slice(0, n)` (keep the first `n` characters). -/
def jsTakeChars (n : Nat) (s : String) : String := String.mk (s.toList.take n)

/-- Substring test on character lists. -/
def listIncludes (needle : List Char) : List Char → Bool
  | [] => needle.isEmpty
  | c :: t => needle.isPrefixOf (c :: t) || listIncludes needle t

/-- JS `s.includes(t)`. -/
def jsIncludes (s t : String) : Bool := listIncludes t.toList s.toList

/-- Code-unit lexicographic order on character lists. -/
def lexLe : List Char → List Char → Bool
  | [], _ => true
  | _ :: _, [] => false
  | a :: as, b :: bs => if a = b then lexLe as bs else decide (a.toNat < b.toNat)

/-- `a.localeCompare(b) <= 0`, modelled as code-unit lexicographic order. -/
def strLe (a b : String) : Bool := lexLe a.toList b.toList

/-- Stable insertion into a sorted list: the new element lands before the
first element it compares less-or-equal to. -/
def stableInsert {α : Type} (le : α → α → Bool) (a : α) : List α → List α
  | [] => [a]
  | b :: t => if le a b then a :: b :: t else b :: stableInsert le a t

/-- Stable sort (JS `Array.prototype.sort` is stable); for the total preorders
used here any stable sort computes the same output. -/
def stableSort {α : Type} (le : α → α → Bool) : List α → List α
  | [] => []
  | a :: t => stableInsert le a (stableSort le t)

/-! ## Shared data model (packages/shared/src/types.ts) -/

/-- `Model.capabilities` object: six optional boolean flags. -/
structure Capabilities where
  text : Option Bool
  vision : Option Bool
  reasoning : Option Bool
  toolUse : Option Bool
  json : Option Bool
  audio : Option Bool
  deriving DecidableEq, Repr

/-- `Model.metrics` object. -/
structure Metrics where
  contextWindow : Option Int
  intelligenceIndex : Option Int
  codingIndex : Option Int
  mathIndex : Option Int
  deriving DecidableEq, Repr

/-- `Model.pricing` object. -/
structure Pricing where
  input : Option Int
  output : Option Int
  blended : Option Int
  deriving DecidableEq, Repr

/-- `Model.config` object; `mode` is a required string literal inside it. -/
structure Config where
  mode : String
  deriving DecidableEq, Repr

/-- A manifest model record (types.ts `Model`). Status and mode literals are
modelled as strings, which covers both status schema generations. -/
structure Model where
  id : String
  value : String
  provider : String
  name : String
  «alias» : Option String
  capabilities : Option Capabilities
  iq : Option Int
  speed : Option Int
  metrics : Option Metrics
  pricing : Option Pricing
  releaseDate : Option String
  status : Option String
  config : Option Config
  deriving DecidableEq, Repr

/-- A manifest provider record (types.ts `Provider`). -/
structure Provider where
  value : String
  name : String
  keyPlaceholder : Option String
  website : Option String
  status : Option String
  deriving DecidableEq, Repr

/-! ## Override resolution (packages/shared/src/capabilities.ts) -/

/-- `ProviderOverride`: states of optional fields follow the source interface. -/
structure ProviderOverride where
  value : String
  name : Option String
  keyPlaceholder : Option String
  website : Option String
  status : Option String
  deriving DecidableEq, Repr

/-- The `inheritFrom` reference of a model override. -/
structure InheritFrom where
  provider : String
  value : String
  deriving DecidableEq, Repr

/-- `ModelOverride` from capabilities.ts. -/
structure ModelOverride where
  provider : String
  value : String
  inheritFrom : Option InheritFrom
  id : Option String
  name : Option String
  «alias» : Option String
  capabilities : Option Capabilities
  iq : Option Int
  speed : Option Int
  metrics : Option Metrics
  pricing : Option Pricing
  releaseDate : Option String
  status : Option String
  config : Option Config
  deriving DecidableEq, Repr

/-- `OverrideConfig`: both lists optional, defaulted to `[]` by the resolver. -/
structure OverrideConfig where
  providers : Option (List ProviderOverride)
  models : Option (List ModelOverride)
  deriving DecidableEq, Repr

/-- Left-biased choice between two optional values; this is the effect of a
spread or of a `!== undefined`-guarded assignment on one optional field. -/
def mergeOpt {α : Type} : Option α → Option α → Option α
  | some v, _ => some v
  | none, e => e

/-- `cloneModel`: a structural copy. On immutable values copying is the
identity; the source's fresh nested objects only matter under mutation. -/
def cloneModel (m : Model) : Model := m

/-- The map key `` `${provider}:${value}` `` used for model maps. -/
def modelKey (provider value : String) : String := provider ++ ":" ++ value

/-- Key of a model record in the model maps. -/
def modelKeyOf (m : Model) : String := modelKey m.provider m.value

/-- JS `name.split('(')[0]?.trim()`: the segment before the first opening
parenthesis, trimmed. -/
def headBeforeParen (s : String) : String := jsTrim ((jsSplitChar '(' s).headD s)

/-- The empty metrics object `\x7b\x7d` used as fallback when merging metrics. -/
def emptyMetrics : Metrics := ⟨none, none, none, none⟩

/-- `\x7b...current, ...override.metrics\x7d`: key-by-key merge where override
keys win and absent override keys keep the current value. -/
def mergeMetrics (current override : Metrics) : Metrics :=
  { contextWindow := mergeOpt override.contextWindow current.contextWindow
    intelligenceIndex := mergeOpt override.intelligenceIndex current.intelligenceIndex
    codingIndex := mergeOpt override.codingIndex current.codingIndex
    mathIndex := mergeOpt override.mathIndex current.mathIndex }

/-- The trailing field-patch chain of the model-override loop: each
`if (override.f !== undefined)` assignment, one independent optional patch per
field. -/
def patchModel (ov : ModelOverride) (m : Model) : Model :=
  { m with
    name := ov.name.getD m.name
    «alias» := mergeOpt ov.«alias» m.«alias»
    capabilities := mergeOpt ov.capabilities m.capabilities
    iq := mergeOpt ov.iq m.iq
    speed := mergeOpt ov.speed m.speed
    metrics :=
      match ov.metrics with
      | some om => some (mergeMetrics (m.metrics.getD emptyMetrics) om)
      | none => m.metrics
    pricing := mergeOpt ov.pricing m.pricing
    releaseDate := mergeOpt ov.releaseDate m.releaseDate
    status := mergeOpt ov.status m.status
    config := mergeOpt ov.config m.config }

/-- One iteration of the provider-override loop of `applyOverrides`. -/
def applyProviderOverride (m : List (String × Provider)) (ov : ProviderOverride) :
    List (String × Provider) :=
  match mapGet m ov.value with
  | some existing =>
      mapSet m ov.value
        { value := ov.value
          name := ov.name.getD existing.name
          keyPlaceholder := mergeOpt ov.keyPlaceholder existing.keyPlaceholder
          website := mergeOpt ov.website existing.website
          status := mergeOpt ov.status existing.status }
  | none =>
      mapSet m ov.value
        { value := ov.value
          name := ov.name.getD ov.value
          keyPlaceholder := ov.keyPlaceholder
          website := ov.website
          status := some (ov.status.getD "active") }

/-- One iteration of the model-override loop of `applyOverrides`. -/
def applyModelOverride (baseModelIndex : List (String × Model))
    (modelsMap : List (String × Model)) (ov : ModelOverride) :
    List (String × Model) :=
  let key := modelKey ov.provider ov.value
  let existing := mapGet modelsMap key
  let inheritedBase :=
    match ov.inheritFrom with
    | some inh => mapGet baseModelIndex (modelKey inh.provider inh.value)
    | none => none
  let model : Model :=
    match inheritedBase with
    | some b =>
        { cloneModel b with
          provider := ov.provider
          value := ov.value
          id := ov.id.getD ("custom:" ++ key) }
    | none =>
        match existing with
        | some e =>
            match ov.id with
            | some i => { cloneModel e with id := i }
            | none => cloneModel e
        | none =>
            let name := ov.name.getD ov.value
            { id := ov.id.getD ("custom:" ++ key)
              provider := ov.provider
              value := ov.value
              name := name
              «alias» := some (ov.«alias».getD (headBeforeParen name))
              capabilities := none, iq := none, speed := none, metrics := none
              pricing := none, releaseDate := none, status := none, config := none }
  mapSet modelsMap key (patchModel ov model)

/-- The provider map seeded from the base providers (copies keyed by slug). -/
def buildProviderMap (baseProviders : List Provider) : List (String × Provider) :=
  baseProviders.foldl (fun m p => mapSet m p.value p) []

/-- `baseModelIndex`: base models keyed by `provider:value`. -/
def buildModelIndex (baseModels : List Model) : List (String × Model) :=
  baseModels.foldl (fun m x => mapSet m (modelKeyOf x) x) []

/-- `modelsMap` seeded with clones of the base models. -/
def buildModelsMap (baseModels : List Model) : List (String × Model) :=
  baseModels.foldl (fun m x => mapSet m (modelKeyOf x) (cloneModel x)) []

/-- `applyOverrides` from capabilities.ts: apply provider and model overrides
to a base manifest and return the resulting provider and model lists. -/
def applyOverrides (baseProviders : List Provider) (baseModels : List Model)
    (overrides : OverrideConfig) : List Provider × List Model :=
  let providerMap :=
    (overrides.providers.getD []).foldl applyProviderOverride (buildProviderMap baseProviders)
  let baseModelIndex := buildModelIndex baseModels
  let modelsMap :=
    (overrides.models.getD []).foldl (applyModelOverride baseModelIndex)
      (buildModelsMap baseModels)
  (providerMap.map Prod.snd, modelsMap.map Prod.snd)

theorem buildModelsMap_eq_index (baseModels : List Model) :
    buildModelsMap baseModels = buildModelIndex baseModels := rfl

theorem buildProviderMap_WF (baseProviders : List Provider) :
    mapWF Provider.value (buildProviderMap baseProviders) := by
  unfold buildProviderMap
  exact mapWF_build Provider.value Provider.value id (fun _ => rfl)
    baseProviders [] (mapWF_nil _)

theorem buildModelIndex_WF (baseModels : List Model) :
    mapWF modelKeyOf (buildModelIndex baseModels) := by
  unfold buildModelIndex
  exact mapWF_build modelKeyOf modelKeyOf id (fun _ => rfl)
    baseModels [] (mapWF_nil _)

theorem patchModel_provider (ov : ModelOverride) (m : Model) :
    (patchModel ov m).provider = m.provider := rfl

theorem patchModel_value (ov : ModelOverride) (m : Model) :
    (patchModel ov m).value = m.value := rfl

/-! ## Model search (packages/shared/src/search.ts)

`filterModels` applies a chain of in-order filter stages. Query fields that
may be a scalar or an array are modelled by `OneOrMany`. Platform date parsing
(`new Date(...)` plus the NaN check) is abstracted as a `parseDate` parameter
returning the timestamp of a valid date and `none` for an invalid one. -/

/-- A query field that accepts a scalar or an array (`string | string[]`). -/
inductive OneOrMany (α : Type) where
  | one (a : α)
  | many (l : List α)
  deriving DecidableEq, Repr

/-- `Array.isArray(x) ? x : [x]`. -/
def OneOrMany.toList {α : Type} : OneOrMany α → List α
  | .one a => [a]
  | .many l => l

/-- JS truthiness of a scalar-or-array string field: an array is always
truthy; a scalar string is truthy when nonempty. -/
def OneOrMany.truthy : OneOrMany String → Bool
  | .one s => !(s == "")
  | .many _ => true

/-- `ModelSearchQuery` from search.ts. -/
structure ModelSearchQuery where
  name : Option (OneOrMany String)
  provider : Option (OneOrMany String)
  capability : Option (OneOrMany String)
  status : Option (OneOrMany String)
  releaseDateFrom : Option String
  releaseDateTo : Option String
  minIq : Option Int
  minSpeed : Option Int
  minContextWindow : Option Int
  mode : Option String
  deriving DecidableEq, Repr

/-- The query with every predicate unset. -/
def emptyQuery : ModelSearchQuery :=
  ⟨none, none, none, none, none, none, none, none, none, none⟩

/-- `model.capabilities?.[key]` for the six capability keys. -/
def capGet (c : Capabilities) (k : String) : Option Bool :=
  if k = "text" then c.text
  else if k = "vision" then c.vision
  else if k = "reasoning" then c.reasoning
  else if k = "toolUse" then c.toolUse
  else if k = "json" then c.json
  else if k = "audio" then c.audio
  else none

/-- `normalizeDate`: falsy input (absent or empty string) is `undefined`;
otherwise the platform parse, `none` when the date is invalid (`NaN`). -/
def normalizeDate (parseDate : String → Option Int) : Option String → Option Int
  | none => none
  | some s => if s == "" then none else parseDate s

/-- The `query.name` stage: OR over search terms, matched against lowercased
name, value and alias substrings; empty terms are dropped, and an empty
term list skips the stage. -/
def nameStage (query : ModelSearchQuery) (l : List Model) : List Model :=
  match query.name with
  | none => l
  | some f =>
      if f.truthy then
        let nameFilters := (f.toList.map (fun n => jsToLower (jsTrim n))).filter
          (fun n => decide (jsLength n > 0))
        if decide (nameFilters.length > 0) then
          l.filter (fun model =>
            nameFilters.any (fun searchTerm =>
              jsIncludes (jsToLower model.name) searchTerm
              || jsIncludes (jsToLower model.value) searchTerm
              || (match model.«alias» with
                  | some a => jsIncludes (jsToLower a) searchTerm
                  | none => false)))
        else l
      else l

/-- The `query.provider` stage: OR over the listed provider slugs. -/
def providerStage (query : ModelSearchQuery) (l : List Model) : List Model :=
  match query.provider with
  | none => l
  | some f =>
      if f.truthy then
        l.filter (fun model => f.toList.contains model.provider)
      else l

/-- The `query.capability` stage: AND over the listed capability flags, with a
missing capabilities object or missing flag counting as false. -/
def capabilityStage (query : ModelSearchQuery) (l : List Model) : List Model :=
  match query.capability with
  | none => l
  | some f =>
      if f.truthy then
        l.filter (fun model =>
          f.toList.all (fun capabilityKey =>
            (model.capabilities.bind (fun c => capGet c capabilityKey)).getD false))
      else l

/-- The `query.status` stage: the model's status must be truthy and among the
listed statuses. -/
def statusStage (query : ModelSearchQuery) (l : List Model) : List Model :=
  match query.status with
  | none => l
  | some f =>
      if f.truthy then
        l.filter (fun model =>
          match model.status with
          | some s => !(s == "") && f.toList.contains s
          | none => false)
      else l

/-- The release-date range stage: active when either bound normalizes to a
date; models without a parsable release date are excluded. -/
def releaseDateStage (parseDate : String → Option Int) (query : ModelSearchQuery)
    (l : List Model) : List Model :=
  let releaseFrom := normalizeDate parseDate query.releaseDateFrom
  let releaseTo := normalizeDate parseDate query.releaseDateTo
  if releaseFrom.isSome || releaseTo.isSome then
    l.filter (fun model =>
      match normalizeDate parseDate model.releaseDate with
      | none => false
      | some modelDate =>
          (match releaseFrom with
           | some f => decide (¬ modelDate < f)
           | none => true)
          && (match releaseTo with
              | some t => decide (¬ t < modelDate)
              | none => true))
  else l

/-- The `query.minIq` stage. -/
def minIqStage (query : ModelSearchQuery) (l : List Model) : List Model :=
  match query.minIq with
  | none => l
  | some bound => l.filter (fun model => decide (model.iq.getD 0 ≥ bound))

/-- The `query.minSpeed` stage. -/
def minSpeedStage (query : ModelSearchQuery) (l : List Model) : List Model :=
  match query.minSpeed with
  | none => l
  | some bound => l.filter (fun model => decide (model.speed.getD 0 ≥ bound))

/-- The `query.minContextWindow` stage. -/
def minContextWindowStage (query : ModelSearchQuery) (l : List Model) : List Model :=
  match query.minContextWindow with
  | none => l
  | some bound =>
      l.filter (fun model =>
        decide ((model.metrics.bind Metrics.contextWindow).getD 0 ≥ bound))

/-- The `query.mode` stage: `model.config?.mode === query.mode` under the
source's truthiness guard on `query.mode`. -/
def modeStage (query : ModelSearchQuery) (l : List Model) : List Model :=
  match query.mode with
  | none => l
  | some md =>
      if md == "" then l
      else
        l.filter (fun model =>
          match model.config with
          | some c => c.mode == md
          | none => false)

/-- `filterModels` from search.ts: the stages applied in source order. -/
def filterModels (parseDate : String → Option Int) (models : List Model)
    (query : ModelSearchQuery) : List Model :=
  modeStage query (minContextWindowStage query (minSpeedStage query (minIqStage query
    (releaseDateStage parseDate query (statusStage query (capabilityStage query
      (providerStage query (nameStage query models))))))))

/-! ## Conditional delivery (packages/server/src/transform.ts)

The `if-none-match` request header is modelled as an `Option String`
(`undefined` when absent); the Elysia response toolkit is modelled as the
status and the two headers these functions touch. -/

/-- The fixed cache policy string applied to every manifest endpoint. -/
def CACHE_HEADER : String :=
  "public, max-age=600, s-maxage=86400, stale-while-revalidate=604800, stale-if-error=604800"

/-- `replace(/^\"+|\"+$/g, '')`: drop the runs of double quotes at both ends. -/
def stripOuterQuotes (s : String) : String :=
  let l := s.toList.dropWhile (fun c => c.toNat = 34)
  String.mk ((l.reverse.dropWhile (fun c => c.toNat = 34)).reverse)

/-- `normalizeEtagValue`: trim, keep `*` as-is, drop a weak-validator `W/`
marker, then drop the surrounding quotes. -/
def normalizeEtagValue (etag : String) : String :=
  let trimmed := jsTrim etag
  if trimmed = "*" then "*"
  else
    let withoutWeak := if jsStartsWith trimmed "W/" then jsDropChars 2 trimmed else trimmed
    stripOuterQuotes withoutWeak

/-- `etagMatches`: a falsy (absent or empty) header never matches; otherwise
split the header on commas, trim, drop empty candidates, and accept when some
candidate is `*` or normalizes equal to the normalized current etag. -/
def etagMatches (ifNoneMatch : Option String) (currentEtag : String) : Bool :=
  match ifNoneMatch with
  | none => false
  | some h =>
      if h = "" then false
      else
        let normalizedCurrent := normalizeEtagValue currentEtag
        (((jsSplitChar ',' h).map jsTrim).filter
            (fun candidate => decide (jsLength candidate > 0))).any
          (fun candidate =>
            candidate == "*" || normalizeEtagValue candidate == normalizedCurrent)

/-- The response toolkit state: status plus the two headers written here. -/
structure ResponseToolkit where
  status : Option Nat
  etagHeader : Option String
  cacheControl : Option String
  deriving DecidableEq, Repr

/-- `applyCachingHeaders`: set `cache-control` and `etag` on the response. -/
def applyCachingHeaders (set : ResponseToolkit) (etag : String) : ResponseToolkit :=
  { set with cacheControl := some CACHE_HEADER, etagHeader := some etag }

/-- `handleConditionalRequest`: on a match set status 304 (and still assert
the caching headers) and report `true`; otherwise leave the status alone,
assert the caching headers and report `false`. -/
def handleConditionalRequest (ifNoneMatch : Option String) (set : ResponseToolkit)
    (etag : String) : Bool × ResponseToolkit :=
  if etagMatches ifNoneMatch etag then
    (true, applyCachingHeaders { set with status := some 304 } etag)
  else
    (false, applyCachingHeaders set etag)

/-- The claim's normalization, written from the spec's words: trim, strip a
weak-validator `W/` marker if present, strip surrounding quotes. -/
def specEtagCore (s : String) : String :=
  let t := jsTrim s
  let t1 := if jsStartsWith t "W/" then jsDropChars 2 t else t
  stripOuterQuotes t1

/-- The claim's 304 condition, written from the spec's words: the header is
present and, after splitting on commas, trimming and dropping empty tokens,
some token is `*` or normalizes equal to the stored etag's normalized core. -/
def specIfNoneMatchMatches (header : Option String) (storedEtag : String) : Bool :=
  match header with
  | none => false
  | some h =>
      (((jsSplitChar ',' h).map jsTrim).filter
          (fun t => decide (jsLength t > 0))).any
        (fun t => t == "*" || specEtagCore t == specEtagCore storedEtag)

theorem normalizeEtagValue_eq_specEtagCore (s : String) :
    normalizeEtagValue s = specEtagCore s := by
  unfold normalizeEtagValue specEtagCore
  by_cases h : jsTrim s = "*"
  · simp only [h]
    rfl
  · simp only [if_neg h]

theorem etagMatches_eq_spec (ifNoneMatch : Option String) (etag : String) :
    etagMatches ifNoneMatch etag = specIfNoneMatchMatches ifNoneMatch etag := by
  unfold etagMatches specIfNoneMatchMatches
  cases ifNoneMatch with
  | none => rfl
  | some h =>
      by_cases he : h = ""
      · subst he
        rfl
      · simp only [if_neg he, normalizeEtagValue_eq_specEtagCore]

/-! ## Canonicalization and version generation (packages/server/src/transform.ts)

`createManifestTags` hashes `JSON.stringify` of the canonical manifest.
`JSON.stringify` emits an object's keys in insertion order and skips keys
whose value is `undefined`, so at this layer a JavaScript object is an ordered
list of fields `(key, Option value)` — exactly what a manifest provider or
model is at run time. Nesting in manifest records is one level deep
(capabilities / metrics / pricing / config), mirrored by the two object
layers below. -/

/-- A primitive JSON value appearing in a manifest record. -/
inductive JAtom where
  | jstr (s : String)
  | jnum (n : Int)
  | jbool (b : Bool)
  deriving DecidableEq, Repr

/-- A field value of a manifest record: a primitive or a nested flat object
(ordered fields, `none` = `undefined`, skipped by `JSON.stringify`). -/
inductive JField where
  | atom (a : JAtom)
  | obj (fields : List (String × Option JAtom))
  deriving DecidableEq, Repr

/-- A provider or model record at the JavaScript object level: ordered fields,
`none` = a key written as `undefined`. -/
def JObj : Type := List (String × Option JField)

instance : DecidableEq JObj := by
  unfold JObj
  infer_instance

/-- Reading a string-valued field of a record (the sort keys `name`,
`provider`, `value`, which are required strings on typed manifest input). -/
def jGetStr (o : JObj) (k : String) : String :=
  match mapGet o k with
  | some (some (.atom (.jstr s))) => s
  | _ => ""

/-- `\x7b...model, key: value\x7d` for one key: replace the key's value keeping
its position, or append the key at the end when it is new. -/
def jSpreadSet (o : JObj) (k : String) (v : Option JField) : JObj :=
  mapSet o k v

/-- `model.k ? \x7b...model.k\x7d : undefined`: a fresh copy of a nested object
field, `undefined` when the field is absent or `undefined`. -/
def jNestedCopy (o : JObj) (k : String) : Option JField :=
  match mapGet o k with
  | some (some (.obj fields)) => some (.obj fields)
  | _ => none

/-- Hex digit (lowercase, as produced by `toString(16)`). -/
def hexDigit (n : Nat) : Char :=
  if n < 10 then Char.ofNat (48 + n) else Char.ofNat (87 + n)

/-- Fixed-width lowercase hex rendering of a number. -/
def hexOfNat (width n : Nat) : String :=
  String.mk (((List.range width).map
    (fun i => hexDigit (n / 16 ^ (width - 1 - i) % 16))))

/-- `JSON.stringify` escaping for one character. -/
def jsonEscapeChar (c : Char) : String :=
  if c.toNat = 34 then "\\\""
  else if c = '\\' then "\\\\"
  else if c = '\n' then "\\n"
  else if c = '\r' then "\\r"
  else if c = '\t' then "\\t"
  else if c = Char.ofNat 8 then "\\b"
  else if c = Char.ofNat 12 then "\\f"
  else if c.toNat < 32 then "\\u" ++ hexOfNat 4 c.toNat
  else String.mk [c]

/-- A JSON string literal with its quotes. -/
def jsonStr (s : String) : String :=
  "\"" ++ String.join (s.toList.map jsonEscapeChar) ++ "\""

/-- Join rendered items with commas. -/
def joinComma : List String → String
  | [] => ""
  | [x] => x
  | x :: xs => x ++ "," ++ joinComma xs

/-- `JSON.stringify` of a primitive. -/
def stringifyAtom : JAtom → String
  | .jstr s => jsonStr s
  | .jnum n => toString n
  | .jbool b => cond b "true" "false"

/-- `JSON.stringify` of a nested flat object: fields in insertion order,
`undefined`-valued keys skipped. -/
def stringifyInnerObj (fields : List (String × Option JAtom)) : String :=
  "\x7b" ++ joinComma (fields.filterMap
    (fun kv => kv.2.map (fun a => jsonStr kv.1 ++ ":" ++ stringifyAtom a))) ++ "\x7d"

/-- `JSON.stringify` of a field value. -/
def stringifyField : JField → String
  | .atom a => stringifyAtom a
  | .obj fields => stringifyInnerObj fields

/-- `JSON.stringify` of a record: fields in insertion order,
`undefined`-valued keys skipped. -/
def stringifyObj (o : JObj) : String :=
  "\x7b" ++ joinComma (o.filterMap
    (fun kv => kv.2.map (fun f => jsonStr kv.1 ++ ":" ++ stringifyField f))) ++ "\x7d"

/-- `JSON.stringify` of an array of records. -/
def stringifyObjArray (l : List JObj) : String :=
  "[" ++ joinComma (l.map stringifyObj) ++ "]"

/-- `JSON.stringify(\x7bproviders, models\x7d)`: the top-level object literal
of `toCanonicalManifest` fixes the key order `providers`, `models`. -/
def stringifyManifest (providers models : List JObj) : String :=
  "\x7b\"providers\":" ++ stringifyObjArray providers ++
    ",\"models\":" ++ stringifyObjArray models ++ "\x7d"

/-- `sortProviders`: sort by display name (stable). -/
def sortProviders (providers : List JObj) : List JObj :=
  stableSort (fun a b => strLe (jGetStr a "name") (jGetStr b "name")) providers

/-- `sortModels`: sort by provider, then by model value (stable). -/
def sortModels (models : List JObj) : List JObj :=
  stableSort (fun a b =>
    if jGetStr a "provider" = jGetStr b "provider" then
      strLe (jGetStr a "value") (jGetStr b "value")
    else strLe (jGetStr a "provider") (jGetStr b "provider")) models

/-- The canonical copy of one model record: shallow copy with fresh copies of
the four nested objects written back (preserving each key's position). -/
def canonicalModelObj (m : JObj) : JObj :=
  jSpreadSet (jSpreadSet (jSpreadSet (jSpreadSet m
    "capabilities" (jNestedCopy m "capabilities"))
    "metrics" (jNestedCopy m "metrics"))
    "pricing" (jNestedCopy m "pricing"))
    "config" (jNestedCopy m "config")

/-- `toCanonicalManifest`: structural copies, providers sorted by name and
models sorted by provider then value. -/
def toCanonicalManifest (providers models : List JObj) : List JObj × List JObj :=
  (sortProviders (providers.map (fun p => p)),
   sortModels (models.map canonicalModelObj))

/-! ### SHA-256

Modelled from the spec: the digest primitive behind `sha256Hex` (the source
delegates to the platform's `crypto.subtle` / `node:crypto`; the spec fixes
the algorithm as SHA-256). This is the standard FIPS 180-4 SHA-256 over the
UTF-8 bytes of the input, rendered as lowercase hex. -/

/-- Truncation to a 32-bit word. -/
def w32 (n : Nat) : Nat := n % 4294967296

/-- Rotating a word right by `n`: the low `n` bits wrap around to the top. -/
def rotr (x n : Nat) : Nat := w32 (x / 2 ^ n + x % 2 ^ n * 2 ^ (32 - n))

/-- Bitwise complement of a 32-bit word. -/
def notw (x : Nat) : Nat := 4294967295 - x

/-- The 64 round constants of the compression loop (decimal). -/
def sha256K : List Nat :=
  [1116352408, 1899447441, 3049323471, 3921009573, 961987163,
   1508970993, 2453635748, 2870763221, 3624381080, 310598401,
   607225278, 1426881987, 1925078388, 2162078206, 2614888103,
   3248222580, 3835390401, 4022224774, 264347078, 604807628,
   770255983, 1249150122, 1555081692, 1996064986, 2554220882,
   2821834349, 2952996808, 3210313671, 3336571891, 3584528711,
   113926993, 338241895, 666307205, 773529912, 1294757372,
   1396182291, 1695183700, 1986661051, 2177026350, 2456956037,
   2730485921, 2820302411, 3259730800, 3345764771, 3516065817,
   3600352804, 4094571909, 275423344, 430227734, 506948616,
   659060556, 883997877, 958139571, 1322822218, 1537002063,
   1747873779, 1955562222, 2024104815, 2227730452, 2361852424,
   2428436474, 2756734187, 3204031479, 3329325298]

/-- The eight words of the starting hash state (decimal). -/
def sha256H0 : List Nat :=
  [1779033703, 3144134277, 1013904242, 2773480762,
   1359893119, 2600822924, 528734635, 1541459225]

/-- Schedule mixer sigma-zero: rotations by 7 and 18 plus a shift by 3. -/
def schedSigma0 (x : Nat) : Nat := (rotr x 7) ^^^ (rotr x 18) ^^^ (x / 2 ^ 3)

/-- Schedule mixer sigma-one: rotations by 17 and 19 plus a shift by 10. -/
def schedSigma1 (x : Nat) : Nat := (rotr x 17) ^^^ (rotr x 19) ^^^ (x / 2 ^ 10)

/-- Round mixer Sigma-zero: rotations by 2, 13 and 22. -/
def roundSigma0 (x : Nat) : Nat := (rotr x 2) ^^^ (rotr x 13) ^^^ (rotr x 22)

/-- Round mixer Sigma-one: rotations by 6, 11 and 25. -/
def roundSigma1 (x : Nat) : Nat := (rotr x 6) ^^^ (rotr x 11) ^^^ (rotr x 25)

/-- UTF-8 bytes of a string; the inputs in play are ASCII, where the bytes
are the code points. -/
def strBytes (s : String) : List Nat := s.toList.map Char.toNat

/-- SHA-256 padding: `0x80`, zeros, then the bit length as 8 big-endian
bytes, to a multiple of 64 bytes. -/
def sha256Pad (msg : List Nat) : List Nat :=
  let len := msg.length
  let zeros := (64 - (len + 9) % 64) % 64
  msg ++ [128] ++ List.replicate zeros 0 ++
    (List.range 8).map (fun i => len * 8 / 256 ^ (7 - i) % 256)

/-- Helper for `chunkList`: collect the current block in reverse. -/
def chunkAux {α : Type} (size : Nat) : List α → List α → List (List α)
  | [], acc => if acc.isEmpty then [] else [acc.reverse]
  | x :: xs, acc =>
      let acc2 := x :: acc
      if acc2.length = size then acc2.reverse :: chunkAux size xs []
      else chunkAux size xs acc2

/-- Split a byte list into blocks of the given size. -/
def chunkList {α : Type} (size : Nat) (l : List α) : List (List α) :=
  chunkAux size l []

/-- Big-endian 32-bit words of a 64-byte block. -/
def blockWords (block : List Nat) : List Nat :=
  (List.range 16).map (fun i =>
    ((block.drop (4 * i)).take 4).foldl (fun a b => a * 256 + b) 0)

/-- Extend 16 words to the 64-word message schedule. -/
def sha256Schedule (initial : List Nat) : List Nat :=
  (List.range 48).foldl
    (fun w _ =>
      let i := w.length
      w ++ [w32 (w.getD (i - 16) 0 + schedSigma0 (w.getD (i - 15) 0) +
        w.getD (i - 7) 0 + schedSigma1 (w.getD (i - 2) 0))])
    initial

/-- One round of the SHA-256 compression function. -/
def sha256Round (st : Nat × Nat × Nat × Nat × Nat × Nat × Nat × Nat)
    (kw : Nat × Nat) : Nat × Nat × Nat × Nat × Nat × Nat × Nat × Nat :=
  let (a, b, c, d, e, f, g, h) := st
  let t1 := w32 (h + roundSigma1 e + ((e &&& f) ^^^ (notw e &&& g)) + kw.1 + kw.2)
  let t2 := w32 (roundSigma0 a + ((a &&& b) ^^^ (a &&& c) ^^^ (b &&& c)))
  (w32 (t1 + t2), a, b, c, w32 (d + t1), e, f, g)

/-- Process one 64-byte block into the running hash state. -/
def sha256Block (hs : List Nat) (block : List Nat) : List Nat :=
  let w := sha256Schedule (blockWords block)
  let init8 := (hs.getD 0 0, hs.getD 1 0, hs.getD 2 0, hs.getD 3 0,
    hs.getD 4 0, hs.getD 5 0, hs.getD 6 0, hs.getD 7 0)
  let fin := (sha256K.zip w).foldl sha256Round init8
  let (a, b, c, d, e, f, g, h) := fin
  [w32 (hs.getD 0 0 + a), w32 (hs.getD 1 0 + b), w32 (hs.getD 2 0 + c),
   w32 (hs.getD 3 0 + d), w32 (hs.getD 4 0 + e), w32 (hs.getD 5 0 + f),
   w32 (hs.getD 6 0 + g), w32 (hs.getD 7 0 + h)]

/-- `sha256Hex`: the lowercase hex SHA-256 digest of a string. -/
def sha256Hex (input : String) : String :=
  let blocks := chunkList 64 (sha256Pad (strBytes input))
  let final := blocks.foldl sha256Block sha256H0
  String.join (final.map (hexOfNat 8))

/-- `createManifestTags`: canonicalize, serialize, hash, and derive the
quoted 32-hex-digit etag and the `v1.`-prefixed 12-hex-digit version. -/
def createManifestTags (providers models : List JObj) : String × String :=
  let canonical := toCanonicalManifest providers models
  let json := stringifyManifest canonical.1 canonical.2
  let fullHash := sha256Hex json
  let shortHash := jsTakeChars 32 fullHash
  ("\"" ++ shortHash ++ "\"", "v1." ++ jsTakeChars 12 shortHash)

/-! ## Claim theorems -/

/-- The same provider record with its two keys written in source order. -/
def providerValueFirst : JObj :=
  [("value", some (.atom (.jstr "openai"))), ("name", some (.atom (.jstr "OpenAI")))]

/-- The same provider record with its two keys written in the other order. -/
def providerNameFirst : JObj :=
  [("name", some (.atom (.jstr "OpenAI"))), ("value", some (.atom (.jstr "openai")))]

set_option maxRecDepth 1000000 in
/-- C1: refuted on key order. The two inputs hold the same single provider
record as a set of fields (a permutation of each other) and the same empty
model list, yet `createManifestTags` returns a different etag and a different
version for them, because `JSON.stringify` emits keys in insertion order and
canonicalization never normalizes it. -/
theorem createManifestTags_key_order_sensitive :
    providerValueFirst.Perm providerNameFirst ∧
    createManifestTags [providerValueFirst] [] ≠ createManifestTags [providerNameFirst] [] ∧
    (createManifestTags [providerValueFirst] []).1 ≠ (createManifestTags [providerNameFirst] []).1 ∧
    (createManifestTags [providerValueFirst] []).2 ≠ (createManifestTags [providerNameFirst] []).2 := by
  refine ⟨by decide, by decide, by decide, by decide⟩

/-- C2: `handleConditionalRequest` reports a 304 (and sets status 304) exactly
when the If-None-Match header is present and, after splitting on commas,
trimming and dropping empty tokens, some token is `*` or normalizes equal to
the stored etag's normalized core; otherwise it reports false and leaves the
status untouched; in both cases it asserts the etag and cache-control
headers. -/
theorem handleConditionalRequest_spec (inm : Option String) (etag : String)
    (set0 : ResponseToolkit) :
    (((handleConditionalRequest inm set0 etag).1 = true ∧
        (handleConditionalRequest inm set0 etag).2.status = some 304)
      ↔ specIfNoneMatchMatches inm etag = true)
    ∧ (specIfNoneMatchMatches inm etag = false →
        (handleConditionalRequest inm set0 etag).1 = false ∧
        (handleConditionalRequest inm set0 etag).2.status = set0.status)
    ∧ (handleConditionalRequest inm set0 etag).2.etagHeader = some etag
    ∧ (handleConditionalRequest inm set0 etag).2.cacheControl = some CACHE_HEADER := by
  unfold handleConditionalRequest
  rw [etagMatches_eq_spec]
  cases h : specIfNoneMatchMatches inm etag <;>
    simp [h, applyCachingHeaders]

/-- C2 witness: `If-None-Match: *` against a concrete stored etag yields the
304 decision with status 304. -/
theorem handleConditionalRequest_spec_witness :
    (handleConditionalRequest (some "*") ⟨none, none, none⟩ "\"abc\"").1 = true ∧
    (handleConditionalRequest (some "*") ⟨none, none, none⟩ "\"abc\"").2.status = some 304 :=
  (handleConditionalRequest_spec (some "*") "\"abc\"" ⟨none, none, none⟩).1.mpr (by decide)

/-- C7: with `capability` set to a list, `filterModels` keeps exactly the
models carrying every listed flag (AND, missing object or flag counting as
false); with `provider` set to a list it keeps exactly the models whose
provider slug is among the listed values (OR). -/
theorem filterModels_capability_and_provider (parseDate : String → Option Int)
    (models : List Model) (caps provs : List String) :
    filterModels parseDate models { emptyQuery with capability := some (.many caps) }
      = models.filter (fun m =>
          caps.all (fun c => (m.capabilities.bind (fun cb => capGet cb c)).getD false))
    ∧ filterModels parseDate models { emptyQuery with provider := some (.many provs) }
      = models.filter (fun m => provs.contains m.provider) :=
  ⟨rfl, rfl⟩

/-- A minimal model with a given id and iq score, for the C8 scenario. -/
def mkIqModel (idv : String) (iq : Option Int) : Model :=
  { id := idv, value := idv, provider := "p", name := idv, «alias» := none
    capabilities := none, iq := iq, speed := none, metrics := none
    pricing := none, releaseDate := none, status := none, config := none }

/-- C8: `minIq` (resp. `minSpeed`) keeps exactly the models whose score,
defaulted to 0 when absent, is at least the bound; in particular `minIq := 4`
against scores 2, 4, 5 and absent keeps exactly the models scoring 4 and 5. -/
theorem filterModels_min_bounds (parseDate : String → Option Int)
    (models : List Model) (q : Int) :
    filterModels parseDate models { emptyQuery with minIq := some q }
      = models.filter (fun m => decide (m.iq.getD 0 ≥ q))
    ∧ filterModels parseDate models { emptyQuery with minSpeed := some q }
      = models.filter (fun m => decide (m.speed.getD 0 ≥ q))
    ∧ filterModels parseDate
        [mkIqModel "m1" (some 2), mkIqModel "m2" (some 4),
         mkIqModel "m3" (some 5), mkIqModel "m4" none]
        { emptyQuery with minIq := some 4 }
      = [mkIqModel "m2" (some 4), mkIqModel "m3" (some 5)] :=
  ⟨rfl, rfl, rfl⟩

theorem nameStage_sublist (q : ModelSearchQuery) (l : List Model) :
    (nameStage q l).Sublist l := by
  unfold nameStage
  cases q.name with
  | none => exact List.Sublist.refl l
  | some f =>
      by_cases h : f.truthy <;> simp only [h, if_true, if_false, Bool.false_eq_true]
      · split
        · exact List.filter_sublist l
        · exact List.Sublist.refl l
      · exact List.Sublist.refl l

theorem providerStage_sublist (q : ModelSearchQuery) (l : List Model) :
    (providerStage q l).Sublist l := by
  unfold providerStage
  cases q.provider with
  | none => exact List.Sublist.refl l
  | some f =>
      dsimp only
      split
      · exact List.filter_sublist l
      · exact List.Sublist.refl l

theorem capabilityStage_sublist (q : ModelSearchQuery) (l : List Model) :
    (capabilityStage q l).Sublist l := by
  unfold capabilityStage
  cases q.capability with
  | none => exact List.Sublist.refl l
  | some f =>
      dsimp only
      split
      · exact List.filter_sublist l
      · exact List.Sublist.refl l

theorem statusStage_sublist (q : ModelSearchQuery) (l : List Model) :
    (statusStage q l).Sublist l := by
  unfold statusStage
  cases q.status with
  | none => exact List.Sublist.refl l
  | some f =>
      dsimp only
      split
      · exact List.filter_sublist l
      · exact List.Sublist.refl l

theorem releaseDateStage_sublist (parseDate : String → Option Int)
    (q : ModelSearchQuery) (l : List Model) :
    (releaseDateStage parseDate q l).Sublist l := by
  dsimp only [releaseDateStage]
  split
  · exact List.filter_sublist l
  · exact List.Sublist.refl l

theorem minIqStage_sublist (q : ModelSearchQuery) (l : List Model) :
    (minIqStage q l).Sublist l := by
  unfold minIqStage
  cases q.minIq with
  | none => exact List.Sublist.refl l
  | some bound => exact List.filter_sublist l

theorem minSpeedStage_sublist (q : ModelSearchQuery) (l : List Model) :
    (minSpeedStage q l).Sublist l := by
  unfold minSpeedStage
  cases q.minSpeed with
  | none => exact List.Sublist.refl l
  | some bound => exact List.filter_sublist l

theorem minContextWindowStage_sublist (q : ModelSearchQuery) (l : List Model) :
    (minContextWindowStage q l).Sublist l := by
  unfold minContextWindowStage
  cases q.minContextWindow with
  | none => exact List.Sublist.refl l
  | some bound => exact List.filter_sublist l

theorem modeStage_sublist (q : ModelSearchQuery) (l : List Model) :
    (modeStage q l).Sublist l := by
  unfold modeStage
  cases q.mode with
  | none => exact List.Sublist.refl l
  | some md =>
      dsimp only
      split
      · exact List.Sublist.refl l
      · exact List.filter_sublist l

/-- C9: `filterModels` returns a subsequence of its input: every returned
model is an input model and the returned models keep the input's relative
order (so the Canonicalizer's sort order survives filtering); purity of the
embedding reflects that the input is never mutated. -/
theorem filterModels_sublist (parseDate : String → Option Int)
    (models : List Model) (q : ModelSearchQuery) :
    (filterModels parseDate models q).Sublist models := by
  unfold filterModels
  exact ((modeStage_sublist q _).trans ((minContextWindowStage_sublist q _).trans
    ((minSpeedStage_sublist q _).trans ((minIqStage_sublist q _).trans
    ((releaseDateStage_sublist parseDate q _).trans ((statusStage_sublist q _).trans
    ((capabilityStage_sublist q _).trans ((providerStage_sublist q _).trans
    (nameStage_sublist q _)))))))))

/-- C10: whenever the status predicate is set (to a truthy scalar or to any
list), every model surviving `filterModels` carries a status value; a model
with no status never matches a status filter. -/
theorem filterModels_status_requires_status (parseDate : String → Option Int)
    (models : List Model) (q : ModelSearchQuery) (st : OneOrMany String) (m : Model)
    (hq : q.status = some st) (ht : st.truthy = true)
    (hm : m ∈ filterModels parseDate models q) : m.status ≠ none := by
  unfold filterModels at hm
  have hsub : (modeStage q (minContextWindowStage q (minSpeedStage q (minIqStage q
      (releaseDateStage parseDate q (statusStage q (capabilityStage q
        (providerStage q (nameStage q models))))))))).Sublist
      (statusStage q (capabilityStage q (providerStage q (nameStage q models)))) :=
    (modeStage_sublist q _).trans ((minContextWindowStage_sublist q _).trans
      ((minSpeedStage_sublist q _).trans ((minIqStage_sublist q _).trans
      (releaseDateStage_sublist parseDate q _))))
  have h1 : m ∈ statusStage q (capabilityStage q (providerStage q (nameStage q models))) :=
    hsub.subset hm
  unfold statusStage at h1
  rw [hq] at h1
  simp only [ht, if_true] at h1
  have h2 := (List.mem_filter.mp h1).2
  cases hs : m.status with
  | none => rw [hs] at h2; simp at h2
  | some s => simp [hs]

/-- A model carrying a status, for the C10 witness. -/
def statusModelA : Model :=
  { id := "s1", value := "v", provider := "p", name := "n", «alias» := none
    capabilities := none, iq := none, speed := none, metrics := none
    pricing := none, releaseDate := none, status := some "active", config := none }

/-- C10 witness: a concrete query with the status predicate set, a model in
its output, and the conclusion that this model carries a status. -/
theorem filterModels_status_requires_status_witness :
    ({ emptyQuery with status := some (.one "active") } : ModelSearchQuery).status
        = some (.one "active")
    ∧ (OneOrMany.one "active").truthy = true
    ∧ statusModelA ∈ filterModels (fun _ => none) [statusModelA]
        { emptyQuery with status := some (.one "active") }
    ∧ statusModelA.status ≠ none :=
  ⟨rfl, rfl, by decide,
    filterModels_status_requires_status (fun _ => none) [statusModelA]
      { emptyQuery with status := some (.one "active") } (.one "active") statusModelA
      rfl rfl (by decide)⟩

theorem mergeOpt_none {α : Type} (o : Option α) : mergeOpt o none = o := by
  cases o <;> rfl

theorem mergeOpt_some {α : Type} (v : α) (e : Option α) : mergeOpt (some v) e = some v :=
  rfl

theorem mergeOpt_none_left {α : Type} (e : Option α) : mergeOpt none e = e := rfl

theorem applyOverrides_single_model (bps : List Provider) (bms : List Model)
    (ov : ModelOverride) :
    (applyOverrides bps bms ⟨none, some [ov]⟩).2
      = (applyModelOverride (buildModelIndex bms) (buildModelIndex bms) ov).map Prod.snd :=
  rfl

theorem applyOverrides_single_provider (bps : List Provider) (bms : List Model)
    (ov : ProviderOverride) :
    (applyOverrides bps bms ⟨some [ov], none⟩).1
      = (applyProviderOverride (buildProviderMap bps) ov).map Prod.snd :=
  rfl

/-- C5: a provider override onto an existing slug shallow-merges field by
field (set override fields win, unset ones keep the existing value); onto a
fresh slug it inserts a provider whose name defaults to the slug and whose
status defaults to `active`. -/
theorem applyOverrides_provider_override (bps : List Provider) (bms : List Model)
    (ov : ProviderOverride) :
    ((applyOverrides bps bms ⟨some [ov], none⟩).1).find? (fun p => p.value == ov.value)
      = some (match mapGet (buildProviderMap bps) ov.value with
          | some existing =>
              { value := ov.value
                name := ov.name.getD existing.name
                keyPlaceholder := mergeOpt ov.keyPlaceholder existing.keyPlaceholder
                website := mergeOpt ov.website existing.website
                status := mergeOpt ov.status existing.status }
          | none =>
              { value := ov.value
                name := ov.name.getD ov.value
                keyPlaceholder := ov.keyPlaceholder
                website := ov.website
                status := some (ov.status.getD "active") }) := by
  rw [applyOverrides_single_provider]
  unfold applyProviderOverride
  cases h : mapGet (buildProviderMap bps) ov.value with
  | some existing => exact find_map_mapSet (buildProviderMap_WF bps) rfl
  | none => exact find_map_mapSet (buildProviderMap_WF bps) rfl

/-- C3: a model override whose target key already holds a model (and whose
inheritance, if any, does not resolve) patches that model field by field:
every explicitly-set override field wins, every unset field keeps the
pre-existing value, and metrics is merged key by key rather than replaced. -/
theorem applyOverrides_model_update_existing (bps : List Provider) (bms : List Model)
    (ov : ModelOverride) (m0 : Model)
    (hin : (match ov.inheritFrom with
            | some inh => mapGet (buildModelIndex bms) (modelKey inh.provider inh.value)
            | none => none) = none)
    (hex : mapGet (buildModelIndex bms) (modelKey ov.provider ov.value) = some m0) :
    ((applyOverrides bps bms ⟨none, some [ov]⟩).2).find?
        (fun m => modelKeyOf m == modelKey ov.provider ov.value)
      = some { id := ov.id.getD m0.id
               value := m0.value
               provider := m0.provider
               name := ov.name.getD m0.name
               «alias» := mergeOpt ov.«alias» m0.«alias»
               capabilities := mergeOpt ov.capabilities m0.capabilities
               iq := mergeOpt ov.iq m0.iq
               speed := mergeOpt ov.speed m0.speed
               metrics :=
                 match ov.metrics with
                 | some om =>
                     some { contextWindow :=
                              mergeOpt om.contextWindow
                                ((m0.metrics.getD emptyMetrics).contextWindow)
                            intelligenceIndex :=
                              mergeOpt om.intelligenceIndex
                                ((m0.metrics.getD emptyMetrics).intelligenceIndex)
                            codingIndex :=
                              mergeOpt om.codingIndex
                                ((m0.metrics.getD emptyMetrics).codingIndex)
                            mathIndex :=
                              mergeOpt om.mathIndex
                                ((m0.metrics.getD emptyMetrics).mathIndex) }
                 | none => m0.metrics
               pricing := mergeOpt ov.pricing m0.pricing
               releaseDate := mergeOpt ov.releaseDate m0.releaseDate
               status := mergeOpt ov.status m0.status
               config := mergeOpt ov.config m0.config } := by
  rw [applyOverrides_single_model]
  have hm0 : modelKeyOf m0 = modelKey ov.provider ov.value :=
    buildModelIndex_WF bms (modelKey ov.provider ov.value, m0) (mapGet_mem hex)
  simp only [applyModelOverride]
  rw [hin, hex]
  have hkey : modelKeyOf (patchModel ov
      (match ov.id with
       | some i => { cloneModel m0 with id := i }
       | none => cloneModel m0)) = modelKey ov.provider ov.value := by
    cases ov.id <;> exact hm0
  rw [find_map_mapSet (buildModelIndex_WF bms) hkey]
  cases ov.id <;> rfl

/-- C4: a model override inheriting from a resolvable base model clones that
model under the override's key: non-overridden fields come from the source,
provider and value are overwritten to the target, the id is the synthetic
`custom:provider:value` unless explicitly given, and set override fields are
applied on top. -/
theorem applyOverrides_model_inherit (bps : List Provider) (bms : List Model)
    (ov : ModelOverride) (inh : InheritFrom) (b : Model)
    (hif : ov.inheritFrom = some inh)
    (hres : mapGet (buildModelIndex bms) (modelKey inh.provider inh.value) = some b) :
    ((applyOverrides bps bms ⟨none, some [ov]⟩).2).find?
        (fun m => modelKeyOf m == modelKey ov.provider ov.value)
      = some { id := ov.id.getD ("custom:" ++ modelKey ov.provider ov.value)
               value := ov.value
               provider := ov.provider
               name := ov.name.getD b.name
               «alias» := mergeOpt ov.«alias» b.«alias»
               capabilities := mergeOpt ov.capabilities b.capabilities
               iq := mergeOpt ov.iq b.iq
               speed := mergeOpt ov.speed b.speed
               metrics :=
                 match ov.metrics with
                 | some om =>
                     some { contextWindow :=
                              mergeOpt om.contextWindow
                                ((b.metrics.getD emptyMetrics).contextWindow)
                            intelligenceIndex :=
                              mergeOpt om.intelligenceIndex
                                ((b.metrics.getD emptyMetrics).intelligenceIndex)
                            codingIndex :=
                              mergeOpt om.codingIndex
                                ((b.metrics.getD emptyMetrics).codingIndex)
                            mathIndex :=
                              mergeOpt om.mathIndex
                                ((b.metrics.getD emptyMetrics).mathIndex) }
                 | none => b.metrics
               pricing := mergeOpt ov.pricing b.pricing
               releaseDate := mergeOpt ov.releaseDate b.releaseDate
               status := mergeOpt ov.status b.status
               config := mergeOpt ov.config b.config } := by
  rw [applyOverrides_single_model]
  simp only [applyModelOverride]
  rw [hif]
  simp only []
  rw [hres]
  have hkey : modelKeyOf (patchModel ov
      { cloneModel b with
        provider := ov.provider
        value := ov.value
        id := ov.id.getD ("custom:" ++ modelKey ov.provider ov.value) })
      = modelKey ov.provider ov.value := rfl
  rw [find_map_mapSet (buildModelIndex_WF bms) hkey]
  rfl

/-- C6: a model override with a dangling inheritance reference raises no
error; it silently falls back to patching the model already stored at the
target key when one exists, and otherwise synthesizes a minimal model from
the override's own fields under a generated id, so the result is still a
fully-formed pair. -/
theorem applyOverrides_model_dangling_inherit (bps : List Provider) (bms : List Model)
    (ov : ModelOverride) (inh : InheritFrom)
    (hif : ov.inheritFrom = some inh)
    (hdangling : mapGet (buildModelIndex bms) (modelKey inh.provider inh.value) = none) :
    (∀ e, mapGet (buildModelIndex bms) (modelKey ov.provider ov.value) = some e →
      ((applyOverrides bps bms ⟨none, some [ov]⟩).2).find?
          (fun m => modelKeyOf m == modelKey ov.provider ov.value)
        = some (patchModel ov
            (match ov.id with
             | some i => { e with id := i }
             | none => e)))
    ∧ (mapGet (buildModelIndex bms) (modelKey ov.provider ov.value) = none →
        ((applyOverrides bps bms ⟨none, some [ov]⟩).2).find?
            (fun m => modelKeyOf m == modelKey ov.provider ov.value)
          = some { id := ov.id.getD ("custom:" ++ modelKey ov.provider ov.value)
                   value := ov.value
                   provider := ov.provider
                   name := ov.name.getD ov.value
                   «alias» := some (ov.«alias».getD
                     (headBeforeParen (ov.name.getD ov.value)))
                   capabilities := ov.capabilities
                   iq := ov.iq
                   speed := ov.speed
                   metrics := ov.metrics
                   pricing := ov.pricing
                   releaseDate := ov.releaseDate
                   status := ov.status
                   config := ov.config }) := by
  constructor
  · intro e hex
    rw [applyOverrides_single_model]
    have hm0 : modelKeyOf e = modelKey ov.provider ov.value :=
      buildModelIndex_WF bms (modelKey ov.provider ov.value, e) (mapGet_mem hex)
    simp only [applyModelOverride]
    rw [hif]
    simp only []
    rw [hdangling, hex]
    have hkey : modelKeyOf (patchModel ov
        (match ov.id with
         | some i => { cloneModel e with id := i }
         | none => cloneModel e)) = modelKey ov.provider ov.value := by
      cases ov.id <;> exact hm0
    rw [find_map_mapSet (buildModelIndex_WF bms) hkey]
    cases ov.id <;> rfl
  · intro hnone
    rw [applyOverrides_single_model]
    simp only [applyModelOverride]
    rw [hif]
    simp only []
    rw [hdangling, hnone]
    have hkey : modelKeyOf (patchModel ov
        { id := ov.id.getD ("custom:" ++ modelKey ov.provider ov.value)
          provider := ov.provider
          value := ov.value
          name := ov.name.getD ov.value
          «alias» := some (ov.«alias».getD (headBeforeParen (ov.name.getD ov.value)))
          capabilities := none, iq := none, speed := none, metrics := none
          pricing := none, releaseDate := none, status := none, config := none })
        = modelKey ov.provider ov.value := rfl
    rw [find_map_mapSet (buildModelIndex_WF bms) hkey]
    refine congrArg some ?_
    cases hal : ov.«alias» <;> cases hnm : ov.name <;> cases hmet : ov.metrics <;>
      simp [patchModel, hal, hnm, hmet, mergeOpt_none, mergeOpt_some,
        mergeOpt_none_left, mergeMetrics, emptyMetrics, Option.getD]

/-- A concrete base model used by the override witnesses. -/
def baseModelA : Model :=
  { id := "aa-1", value := "gpt-5", provider := "openai", name := "GPT-5 (preview)"
    «alias» := some "GPT-5"
    capabilities := some ⟨some true, some true, some true, some true, some true, some false⟩
    iq := some 4, speed := some 3
    metrics := some ⟨some 128000, some 60, none, none⟩
    pricing := some ⟨some 2, some 8, some 4⟩
    releaseDate := some "2025-01-01", status := some "active", config := none }

/-- A concrete non-inheriting override targeting `baseModelA`'s key. -/
def overrideA : ModelOverride :=
  { provider := "openai", value := "gpt-5", inheritFrom := none, id := none
    name := some "GPT-5 Turbo", «alias» := none, capabilities := none
    iq := some 5, speed := none
    metrics := some ⟨none, some 70, none, none⟩
    pricing := none, releaseDate := none, status := none, config := none }

/-- A concrete override inheriting from `baseModelA` onto a new provider. -/
def overrideB : ModelOverride :=
  { provider := "groq", value := "gpt-5-fast", inheritFrom := some ⟨"openai", "gpt-5"⟩
    id := none, name := none, «alias» := none, capabilities := none, iq := none
    speed := some 5, metrics := none, pricing := none, releaseDate := none
    status := none, config := none }

/-- A concrete override with a dangling inheritance reference. -/
def overrideC : ModelOverride :=
  { provider := "azure", value := "gpt-x", inheritFrom := some ⟨"nope", "missing"⟩
    id := none, name := some "GPT X (hosted)", «alias» := none, capabilities := none
    iq := some 3, speed := none, metrics := none, pricing := none
    releaseDate := none, status := none, config := none }

/-- C3 witness: the override patches the existing model at `openai:gpt-5`;
set fields (name, iq, the one metrics key) win, unset fields keep the base
values. -/
theorem applyOverrides_model_update_existing_witness :
    (match overrideA.inheritFrom with
     | some inh => mapGet (buildModelIndex [baseModelA]) (modelKey inh.provider inh.value)
     | none => none) = none
    ∧ mapGet (buildModelIndex [baseModelA])
        (modelKey overrideA.provider overrideA.value) = some baseModelA
    ∧ ((applyOverrides [] [baseModelA] ⟨none, some [overrideA]⟩).2).find?
        (fun m => modelKeyOf m == modelKey overrideA.provider overrideA.value)
      = some { id := "aa-1", value := "gpt-5", provider := "openai"
               name := "GPT-5 Turbo", «alias» := some "GPT-5"
               capabilities :=
                 some ⟨some true, some true, some true, some true, some true, some false⟩
               iq := some 5, speed := some 3
               metrics := some ⟨some 128000, some 70, none, none⟩
               pricing := some ⟨some 2, some 8, some 4⟩
               releaseDate := some "2025-01-01", status := some "active"
               config := none } :=
  ⟨by decide, by decide,
    applyOverrides_model_update_existing [] [baseModelA] overrideA baseModelA
      (by decide) (by decide)⟩

/-- C4 witness: the inheriting override clones `baseModelA` under
`groq:gpt-5-fast` with the synthetic id, then applies its `speed` patch. -/
theorem applyOverrides_model_inherit_witness :
    overrideB.inheritFrom = some ⟨"openai", "gpt-5"⟩
    ∧ mapGet (buildModelIndex [baseModelA]) (modelKey "openai" "gpt-5") = some baseModelA
    ∧ ((applyOverrides [] [baseModelA] ⟨none, some [overrideB]⟩).2).find?
        (fun m => modelKeyOf m == modelKey overrideB.provider overrideB.value)
      = some { id := "custom:groq:gpt-5-fast", value := "gpt-5-fast", provider := "groq"
               name := "GPT-5 (preview)", «alias» := some "GPT-5"
               capabilities :=
                 some ⟨some true, some true, some true, some true, some true, some false⟩
               iq := some 4, speed := some 5
               metrics := some ⟨some 128000, some 60, none, none⟩
               pricing := some ⟨some 2, some 8, some 4⟩
               releaseDate := some "2025-01-01", status := some "active"
               config := none } :=
  ⟨by decide, by decide,
    applyOverrides_model_inherit [] [baseModelA] overrideB ⟨"openai", "gpt-5"⟩ baseModelA
      (by decide) (by decide)⟩

/-- C6 witness: the dangling reference of `overrideC` resolves to nothing and
no model sits at `azure:gpt-x`, so the resolver synthesizes a minimal model
with the generated id — and raises no error. -/
theorem applyOverrides_model_dangling_inherit_witness :
    overrideC.inheritFrom = some ⟨"nope", "missing"⟩
    ∧ mapGet (buildModelIndex [baseModelA]) (modelKey "nope" "missing") = none
    ∧ mapGet (buildModelIndex [baseModelA])
        (modelKey overrideC.provider overrideC.value) = none
    ∧ ((applyOverrides [] [baseModelA] ⟨none, some [overrideC]⟩).2).find?
        (fun m => modelKeyOf m == modelKey overrideC.provider overrideC.value)
      = some { id := "custom:azure:gpt-x", value := "gpt-x", provider := "azure"
               name := "GPT X (hosted)", «alias» := some "GPT X"
               capabilities := none, iq := some 3, speed := none, metrics := none
               pricing := none, releaseDate := none, status := none, config := none } :=
  ⟨by decide, by decide, by decide,
    (applyOverrides_model_dangling_inherit [] [baseModelA] overrideC ⟨"nope", "missing"⟩
      (by decide) (by decide)).2 (by decide)⟩

end LlmRegistry
